import Mathlib

/-!
Verification of the `surfacecode` repository: a shallow embedding of
`surfacecode/surface.py` (the `SurfaceCodeCycle` and `HeavyHexCode` cycle
builders) and `surfacecode/logical_qubit.py` (the `LQubit` logical-qubit
operations), together with theorems settling the specification claims.

Qubit and node indices are natural numbers except in the `LQubit`
operations, whose Python arithmetic (`m_node - 1`, `m_node - width`) can go
negative; there indices are integers.  Fallible constructions (Python
`assert` / `IndexError` / qiskit `CircuitError`) are embedded in
`Except String`.
-/

namespace Surfacecode

/-- Node roles: `DataNode`, `ZNode`, `XNode`, `FlagNode`, `AncillaNode` and the
generic `BaseNode` of `surfacecode/nodes.py`. -/
inductive Role
  | Data
  | Z
  | X
  | Flag
  | Ancilla
  | Base
deriving DecidableEq, Repr

/-- A lattice node: a role together with the mutable `active` flag. -/
structure Node where
  role : Role
  active : Bool
deriving DecidableEq, Repr

/-- An adjacency record of the lattice graph: the neighbour's index plus the
cached copy of the neighbour's `active` flag carried on the edge. -/
structure Edge where
  node : Nat
  active : Bool
deriving DecidableEq, Repr

/-- Modelled from the spec: the `Lattice` class lives in
`surfacecode/lattice.py`, which is not part of the sources given; spec
sections 3 and 4.1 describe it.  `nodes` maps each index `0..num_nodes-1` to
its role and `active` flag, `graph` maps each index to the ordered list of
its neighbour edges (each caching the neighbour's `active` flag), and square
lattices expose `width`.  The keys of `graph` are the node indices in
ascending order. -/
structure Lattice where
  nodes : List Node
  graph : List (List Edge)
  width : Nat
deriving DecidableEq, Repr

/-- `len(lattice.nodes)`. -/
def Lattice.numNodes (L : Lattice) : Nat := L.nodes.length

/-- Well-formedness used by the cycle builders: the graph has one adjacency
list per node. -/
def Lattice.WF (L : Lattice) : Prop := L.graph.length = L.nodes.length

instance (L : Lattice) : Decidable L.WF := by
  unfold Lattice.WF; infer_instance

/-- Default node returned by out-of-range lookups. -/
def dNode : Node := ⟨Role.Base, true⟩

/-- Default edge returned by out-of-range lookups. -/
def dEdge : Edge := ⟨0, false⟩

/-- Gates of the cycle-builder circuits (qubit indices are naturals; `meas`
records the classical bit it writes). -/
inductive Gate
  | reset (q : Nat)
  | h (q : Nat)
  | cx (c t : Nat)
  | iden (q : Nat)
  | meas (q : Nat) (c : Nat)
deriving DecidableEq, Repr

/-- Labels of the gadget instructions produced by `to_instruction`. -/
inductive GLabel
  | mz
  | mx
  | mx2
  | mx4
deriving DecidableEq, Repr

/-- One entry of a built circuit's data: either a gadget instruction applied
to all qubits with the given classical bits, or a barrier. -/
inductive CInstr
  | gadget (label : GLabel) (gates : List Gate) (cargs : List Nat)
  | barrier
deriving DecidableEq, Repr

/-- A built circuit: number of qubits, widths of the classical registers
added so far, and the instruction list. -/
structure Circuit where
  qubits : Nat
  cregs : List Nat
  instrs : List CInstr
deriving DecidableEq, Repr

/-- Resolving a gadget instruction: each `meas` writes through the
instruction's classical-bit arguments. -/
def mapClbits (cargs : List Nat) : Gate → Gate
  | Gate.meas q c => Gate.meas q (cargs.getD c 0)
  | g => g

/-- The gates of an instruction after mapping its classical bits. -/
def CInstr.flatten : CInstr → List Gate
  | CInstr.gadget _ gs cargs => gs.map (mapClbits cargs)
  | CInstr.barrier => []

/-! ## SurfaceCodeCycle (`surface.py`, lines 15-100) -/

/-- `SurfaceCodeCycle._measure_z`: the active-neighbour collection loop
(`for k in self.lattice.graph[qZ]: if k.active: append(k.node)`) followed by
`id`, `reset`, the `cx` loop from each collected neighbour into `qZ`,
`measure` into local classical bit 0, and a trailing `id`. -/
def measureZ (L : Lattice) (qZ : Nat) : List Gate :=
  let activeNeighbours :=
    (L.graph.getD qZ []).foldl (fun acc k => if k.active then acc ++ [k.node] else acc) []
  let gs := [Gate.iden qZ, Gate.reset qZ]
  let gs := activeNeighbours.foldl (fun acc i => acc ++ [Gate.cx i qZ]) gs
  gs ++ [Gate.meas qZ 0, Gate.iden qZ]

/-- `SurfaceCodeCycle._measure_x`: `reset`, `h`, the `cx` loop from `qX` into
each active neighbour, `h`, `measure`. -/
def measureX (L : Lattice) (qX : Nat) : List Gate :=
  let activeNeighbours :=
    (L.graph.getD qX []).foldl (fun acc k => if k.active then acc ++ [k.node] else acc) []
  let gs := [Gate.reset qX, Gate.h qX]
  let gs := activeNeighbours.foldl (fun acc i => acc ++ [Gate.cx qX i]) gs
  gs ++ [Gate.h qX, Gate.meas qX 0]

/-- Body of the inner loop of `SurfaceCodeCycle._circuit`: append the
measure-Z gadget if `nodes[i]` is a `ZNode`, else the measure-X gadget if it
is an `XNode` (any other role contributes nothing), wired to classical bit
`i + j * num_nodes`. -/
def scNodeStep (L : Lattice) (j : Nat) (qcI : Circuit) (i : Nat) : Circuit :=
  let node := L.nodes.getD i dNode
  let classicalBitLoc := i + j * L.numNodes
  if node.role = Role.Z then
    { qcI with instrs :=
        qcI.instrs ++ [CInstr.gadget GLabel.mz (measureZ L i) [classicalBitLoc]] }
  else if node.role = Role.X then
    { qcI with instrs :=
        qcI.instrs ++ [CInstr.gadget GLabel.mx (measureX L i) [classicalBitLoc]] }
  else qcI

/-- Body of the outer loop of `SurfaceCodeCycle._circuit`: add a classical
register of width `num_nodes`, run the inner loop over the keys of the
graph, end the cycle with a barrier. -/
def scCycleStep (L : Lattice) (qc : Circuit) (j : Nat) : Circuit :=
  let qc1 : Circuit := { qc with cregs := qc.cregs ++ [L.numNodes] }
  let qc2 : Circuit := (List.range L.graph.length).foldl (scNodeStep L j) qc1
  { qc2 with instrs := qc2.instrs ++ [CInstr.barrier] }

/-- `SurfaceCodeCycle._circuit(num_cycles)`. -/
def scCircuit (L : Lattice) (numCycles : Nat) : Circuit :=
  (List.range numCycles).foldl (scCycleStep L) ⟨L.numNodes, [], []⟩

/-! ## Spec-side descriptions of the surface-code gadgets and rounds -/

/-- The active neighbours of a node, read from the edge caches, as the spec
describes them. -/
def activeNeighbours (L : Lattice) (q : Nat) : List Nat :=
  ((L.graph.getD q []).filter (fun k => k.active)).map Edge.node

/-- Spec-side description of the measure-Z gadget: identity marker, reset,
one controlled-NOT from each currently-active neighbour into the syndrome
qubit, measurement, trailing identity marker. -/
def measureZSpec (L : Lattice) (qZ : Nat) : List Gate :=
  [Gate.iden qZ, Gate.reset qZ]
    ++ (activeNeighbours L qZ).map (fun i => Gate.cx i qZ)
    ++ [Gate.meas qZ 0, Gate.iden qZ]

/-- Spec-side description of the measure-X gadget: reset, Hadamard, one
controlled-NOT from the syndrome qubit into each active neighbour, Hadamard,
measurement. -/
def measureXSpec (L : Lattice) (qX : Nat) : List Gate :=
  [Gate.reset qX, Gate.h qX]
    ++ (activeNeighbours L qX).map (fun i => Gate.cx qX i)
    ++ [Gate.h qX, Gate.meas qX 0]

/-- Spec-side dispatch for node `i` in round `j`: a measure-Z gadget for a
`ZNode`, a measure-X gadget for an `XNode`, nothing for any other role; the
gadget is wired to classical bit `i + j * num_nodes`. -/
def scDispatch (L : Lattice) (j i : Nat) : Option CInstr :=
  match (L.nodes.getD i dNode).role with
  | Role.Z => some (CInstr.gadget GLabel.mz (measureZ L i) [i + j * L.numNodes])
  | Role.X => some (CInstr.gadget GLabel.mx (measureX L i) [i + j * L.numNodes])
  | _ => none

/-- Spec-side description of round `j`: in ascending node order, one gadget
per `ZNode`/`XNode` wired to classical bit `i + j * num_nodes`, nothing for
any other role, then exactly one barrier. -/
def scRoundSpec (L : Lattice) (j : Nat) : List CInstr :=
  (List.range L.numNodes).filterMap (scDispatch L j) ++ [CInstr.barrier]

/-- Spec-side description of the whole `num_cycles`-round circuit: one
classical register of width `num_nodes` per round and the concatenation of
the per-round instruction blocks. -/
def scCircuitSpec (L : Lattice) (numCycles : Nat) : Circuit :=
  ⟨L.numNodes, List.replicate numCycles L.numNodes,
    (List.range numCycles).flatMap (scRoundSpec L)⟩

/-- A concrete 3×3 square lattice with checkerboard `ZNode`/`XNode` roles and
every node active. -/
def sq3 : Lattice where
  nodes :=
    [⟨Role.Z, true⟩, ⟨Role.X, true⟩, ⟨Role.Z, true⟩,
     ⟨Role.X, true⟩, ⟨Role.Z, true⟩, ⟨Role.X, true⟩,
     ⟨Role.Z, true⟩, ⟨Role.X, true⟩, ⟨Role.Z, true⟩]
  graph :=
    [[⟨1, true⟩, ⟨3, true⟩],
     [⟨0, true⟩, ⟨2, true⟩, ⟨4, true⟩],
     [⟨1, true⟩, ⟨5, true⟩],
     [⟨4, true⟩, ⟨0, true⟩, ⟨6, true⟩],
     [⟨3, true⟩, ⟨5, true⟩, ⟨1, true⟩, ⟨7, true⟩],
     [⟨4, true⟩, ⟨2, true⟩, ⟨8, true⟩],
     [⟨7, true⟩, ⟨3, true⟩],
     [⟨6, true⟩, ⟨8, true⟩, ⟨4, true⟩],
     [⟨7, true⟩, ⟨5, true⟩]]
  width := 3

/-! ## HeavyHexCode (`surface.py`, lines 103-252)

Failures (Python `assert`, `IndexError`, qiskit register-size errors) abort
circuit construction, so the builders are embedded in `Except String`: an
exception anywhere yields `Except.error` for the whole construction. -/

/-- The role of node `i` (`type(self.lattice.nodes[i])`). -/
def nodeRole (L : Lattice) (i : Nat) : Role := (L.nodes.getD i dNode).role

/-- The adjacency list of node `i` (`self.lattice.graph[i]`). -/
def adj (L : Lattice) (i : Nat) : List Edge := L.graph.getD i []

instance {ε α : Type} [DecidableEq ε] [DecidableEq α] : DecidableEq (Except ε α)
  | Except.ok a, Except.ok b =>
      if h : a = b then Decidable.isTrue (by rw [h])
      else Decidable.isFalse (fun hc => h (Except.ok.inj hc))
  | Except.ok _, Except.error _ => Decidable.isFalse (fun hc => Except.noConfusion hc)
  | Except.error _, Except.ok _ => Decidable.isFalse (fun hc => Except.noConfusion hc)
  | Except.error e, Except.error f =>
      if h : e = f then Decidable.isTrue (by rw [h])
      else Decidable.isFalse (fun hc => h (Except.error.inj hc))

/-- The neighbour-collection loop of `HeavyHexCode._measure_z`: keep each
active neighbour that is not an `AncillaNode`, asserting it is a
`DataNode`. -/
def collectZData (L : Lattice) : List Edge → Except String (List Nat)
  | [] => Except.ok []
  | k :: rest =>
      if k.active = true ∧ nodeRole L k.node ≠ Role.Ancilla then
        if nodeRole L k.node = Role.Data then
          (collectZData L rest).map (fun ds => k.node :: ds)
        else Except.error "AssertionError"
      else collectZData L rest

/-- The inner data-collection loop of `HeavyHexCode._measure_x_4` for one
flag: keep each active neighbour of the flag other than the measure-X qubit
`qX`, asserting it is a `DataNode`. -/
def collectFlagData (L : Lattice) (qX : Nat) : List Edge → Except String (List Nat)
  | [] => Except.ok []
  | k :: rest =>
      if k.active = true ∧ k.node ≠ qX then
        if nodeRole L k.node = Role.Data then
          (collectFlagData L qX rest).map (fun ds => k.node :: ds)
        else Except.error "AssertionError"
      else collectFlagData L qX rest

/-- The outer data-collection loop of `HeavyHexCode._measure_x_4`: run the
inner loop over every collected flag neighbour, in order. -/
def collectAllFlagData (L : Lattice) (qX : Nat) : List Nat → Except String (List Nat)
  | [] => Except.ok []
  | flag :: rest =>
      match collectFlagData L qX (adj L flag) with
      | Except.error e => Except.error e
      | Except.ok ds =>
          match collectAllFlagData L qX rest with
          | Except.error e => Except.error e
          | Except.ok rest' => Except.ok (ds ++ rest')

/-- `HeavyHexCode._measure_z`: assert the node is a `FlagNode`; collect its
active non-ancilla neighbours (each asserted to be a `DataNode`); reset the
flag, `cx` from the second collected data neighbour into it, `cx` from the
first, measure into local classical bit 0.  Missing neighbours surface as
the Python `IndexError` on `dataNeighbours[1]`/`dataNeighbours[0]`. -/
def hhMeasureZ (L : Lattice) (qZ : Nat) : Except String (List Gate) :=
  if nodeRole L qZ ≠ Role.Flag then
    Except.error "The given qubit must be an Flag qubit"
  else
    match collectZData L (adj L qZ) with
    | Except.error e => Except.error e
    | Except.ok dataNeighbours =>
        match dataNeighbours.get? 1, dataNeighbours.get? 0 with
        | some d1, some d0 =>
            Except.ok [Gate.reset qZ, Gate.cx d1 qZ, Gate.cx d0 qZ, Gate.meas qZ 0]
        | _, _ => Except.error "IndexError"

/-- `HeavyHexCode._measure_x_2`: assert the node is an `AncillaNode`;
collect its active neighbours; reset the ancilla, `cx` into the second
collected neighbour, `cx` into the first, measure into local classical
bit 0. -/
def hhMeasureX2 (L : Lattice) (qX : Nat) : Except String (List Gate) :=
  if nodeRole L qX ≠ Role.Ancilla then
    Except.error "The given qubit must be an Ancilla qubit"
  else
    let dataNeighbours :=
      (adj L qX).foldl (fun acc k => if k.active then acc ++ [k.node] else acc) []
    match dataNeighbours.get? 1, dataNeighbours.get? 0 with
    | some d1, some d0 =>
        Except.ok [Gate.reset qX, Gate.cx qX d1, Gate.cx qX d0, Gate.meas qX 0]
    | _, _ => Except.error "IndexError"

/-- `HeavyHexCode._measure_x_4`: assert the node is an `AncillaNode`;
collect its active neighbours as `flagNeighbours` and their active non-`qX`
neighbours as `dataNeighbours` (each asserted to be a `DataNode`); then
reset the ancilla, Hadamard it, reset both flags, `cx` ancilla→flag1 and
ancilla→flag0, the four flag→data `cx`s in source order
(`[1]→[2]`, `[0]→[1]`, `[1]→[3]`, `[0]→[0]`), `cx` ancilla→flag1 and
ancilla→flag0 again, measure the flags into local classical bits 0 and 1
and the Hadamard-rotated ancilla into local bit 2.  `measure(flagNeighbours,
[0, 1])` requires exactly two flags (qiskit register-size check). -/
def hhMeasureX4 (L : Lattice) (qX : Nat) : Except String (List Gate) :=
  if nodeRole L qX ≠ Role.Ancilla then
    Except.error "The given qubit must be an Ancilla qubit"
  else
    let flagNeighbours :=
      (adj L qX).foldl (fun acc k => if k.active then acc ++ [k.node] else acc) []
    match collectAllFlagData L qX flagNeighbours with
    | Except.error e => Except.error e
    | Except.ok dataNeighbours =>
        match flagNeighbours.get? 1, flagNeighbours.get? 0 with
        | some f1, some f0 =>
            match dataNeighbours.get? 2, dataNeighbours.get? 1,
                  dataNeighbours.get? 3, dataNeighbours.get? 0 with
            | some d2, some d1, some d3, some d0 =>
                if flagNeighbours.length = 2 then
                  Except.ok [Gate.reset qX, Gate.h qX, Gate.reset f0, Gate.reset f1,
                    Gate.cx qX f1, Gate.cx qX f0,
                    Gate.cx f1 d2, Gate.cx f0 d1, Gate.cx f1 d3, Gate.cx f0 d0,
                    Gate.cx qX f1, Gate.cx qX f0,
                    Gate.meas f0 0, Gate.meas f1 1, Gate.h qX, Gate.meas qX 2]
                else Except.error "CircuitError"
            | _, _, _, _ => Except.error "IndexError"
        | _, _ => Except.error "IndexError"

/-- The per-node dispatch of `HeavyHexCode._circuit` (lines 124-144): a
`FlagNode` gets the measure-Z gadget at classical bit `i + j * num_nodes`;
an `AncillaNode` is dispatched on the role of `graph[i][0]`: `DataNode`
(asserting `graph[i][1]` is also a `DataNode`) → measure_x_2, `FlagNode` →
measure_x_4 wired to the classical bits of the two neighbours and the
ancilla; any other first-neighbour role falls through with no gadget and no
error, as does any non-flag, non-ancilla node. -/
def hhNodeInstr (L : Lattice) (j i : Nat) : Except String (List CInstr) :=
  let classicalBitLoc := i + j * L.numNodes
  if nodeRole L i = Role.Flag then
    match hhMeasureZ L i with
    | Except.error e => Except.error e
    | Except.ok g => Except.ok [CInstr.gadget GLabel.mz g [classicalBitLoc]]
  else if nodeRole L i = Role.Ancilla then
    let neighbour1 := ((adj L i).getD 0 dEdge).node
    let neighbour2 := ((adj L i).getD 1 dEdge).node
    if nodeRole L neighbour1 = Role.Data then
      if nodeRole L neighbour2 = Role.Data then
        match hhMeasureX2 L i with
        | Except.error e => Except.error e
        | Except.ok g => Except.ok [CInstr.gadget GLabel.mx2 g [classicalBitLoc]]
      else Except.error "AssertionError"
    else if nodeRole L neighbour1 = Role.Flag then
      match hhMeasureX4 L i with
      | Except.error e => Except.error e
      | Except.ok g => Except.ok [CInstr.gadget GLabel.mx4 g
          [neighbour1 + j * L.numNodes, neighbour2 + j * L.numNodes, classicalBitLoc]]
    else Except.ok []
  else Except.ok []

/-- A concrete heavy-hex diamond: data 0,1 below flag 2, ancilla 3 in the
middle, flag 4 with data 5,6; every node active. -/
def diamond : Lattice where
  nodes := [⟨Role.Data, true⟩, ⟨Role.Data, true⟩, ⟨Role.Flag, true⟩,
            ⟨Role.Ancilla, true⟩, ⟨Role.Flag, true⟩, ⟨Role.Data, true⟩,
            ⟨Role.Data, true⟩]
  graph := [[⟨2, true⟩], [⟨2, true⟩],
            [⟨0, true⟩, ⟨1, true⟩, ⟨3, true⟩],
            [⟨2, true⟩, ⟨4, true⟩],
            [⟨5, true⟩, ⟨6, true⟩, ⟨3, true⟩],
            [⟨4, true⟩], [⟨4, true⟩]]
  width := 7

/-- A lattice whose ancilla 0 has another `AncillaNode` as its first
neighbour: a neighbour-role combination the dispatch recognises neither as
the two-data nor as the two-flag pattern. -/
def badAnc : Lattice where
  nodes := [⟨Role.Ancilla, true⟩, ⟨Role.Ancilla, true⟩, ⟨Role.Data, true⟩]
  graph := [[⟨1, true⟩, ⟨2, true⟩], [⟨0, true⟩], [⟨0, true⟩]]
  width := 3

/-- A lattice whose ancilla 1 sits between the two data nodes 0 and 2. -/
def mx2lat : Lattice where
  nodes := [⟨Role.Data, true⟩, ⟨Role.Ancilla, true⟩, ⟨Role.Data, true⟩]
  graph := [[⟨1, true⟩], [⟨0, true⟩, ⟨2, true⟩], [⟨1, true⟩]]
  width := 3

/-! ## LQubit (`logical_qubit.py`) -/

/-- Gates of the logical-qubit circuits.  Qubit indices are integers because
the Python neighbour arithmetic (`m_node - 1`, `m_node - width`) can go
negative and qiskit then wraps or rejects the index. -/
inductive LGate
  | cx (c t : Int)
  | h (q : Int)
  | x (q : Int)
  | z (q : Int)
  | meas (q : Int)
  | barrier
deriving DecidableEq, Repr

/-- `nodes[i].active = b` on the node list. -/
def setNodeActive : List Node → Nat → Bool → List Node
  | [], _, _ => []
  | nd :: rest, 0, b => ⟨nd.role, b⟩ :: rest
  | nd :: rest, k + 1, b => nd :: setNodeActive rest k b

/-- Modelled from the spec: `_switch_node(index, active)` is defined in
`surfacecode/lattice.py`, which is not part of the given sources.  Spec
section 4.1: it "toggles `nodes[index].active`" and "must propagate the
change to every edge-record elsewhere in the graph that caches this node's
activity". -/
def switchNode (L : Lattice) (i : Nat) (b : Bool) : Lattice where
  nodes := setNodeActive L.nodes i b
  graph := L.graph.map (fun es => es.map (fun e => if e.node = i then ⟨e.node, b⟩ else e))
  width := L.width

/-- The logical-qubit record: lattice, measurement node, ancilla node and
parity type (`true` for Z-cut, `false` for X-cut).  The Python object's
mutable `self.lattice` is threaded explicitly: operations that mutate it
return the updated qubit alongside the circuit they build. -/
structure LQubit where
  lattice : Lattice
  m_node : Nat
  a_node : Nat
  type : Bool
deriving Repr

/-- `LQubit.initialise`: switch the measurement and ancilla nodes off, then
emit the patch projection around the measurement node — for Z-cut,
controlled-NOT from each of `m+1`, `m-1`, `m+width`, `m-width` into `m`; for
X-cut the Hadamard-sandwiched dual — the indices computed purely
arithmetically with no bounds or adjacency check, then measure `m` and end
with a barrier. -/
def LQubit.initialise (q : LQubit) : LQubit × List LGate :=
  let L := switchNode (switchNode q.lattice q.m_node false) q.a_node false
  let m : Int := q.m_node
  let w : Int := q.lattice.width
  let gates :=
    if q.type then
      [LGate.cx (m + 1) m, LGate.cx (m - 1) m, LGate.cx (m + w) m, LGate.cx (m - w) m]
    else
      [LGate.h m, LGate.cx m (m + 1), LGate.cx m (m - 1), LGate.cx m (m + w),
       LGate.cx m (m - w), LGate.h m]
  ({ q with lattice := L }, gates ++ [LGate.meas m, LGate.barrier])

/-- `LQubit.measure`: the same projection gates and measurement, then switch
the measurement and ancilla nodes back on and end with a barrier. -/
def LQubit.measure (q : LQubit) : LQubit × List LGate :=
  let m : Int := q.m_node
  let w : Int := q.lattice.width
  let gates :=
    if q.type then
      [LGate.cx (m + 1) m, LGate.cx (m - 1) m, LGate.cx (m + w) m, LGate.cx (m - w) m]
    else
      [LGate.h m, LGate.cx m (m + 1), LGate.cx m (m - 1), LGate.cx m (m + w),
       LGate.cx m (m - w), LGate.h m]
  let L := switchNode (switchNode q.lattice q.m_node true) q.a_node true
  ({ q with lattice := L }, gates ++ [LGate.meas m, LGate.barrier])

/-- `LQubit.circle_gate`: Pauli-Z (Z-cut) or Pauli-X (X-cut) on the four
arithmetically computed neighbours `m+1`, `m-1`, `m+width`, `m-width`, then
a barrier. -/
def LQubit.circle_gate (q : LQubit) : List LGate :=
  let m : Int := q.m_node
  let w : Int := q.lattice.width
  (if q.type then
    [LGate.z (m + 1), LGate.z (m - 1), LGate.z (m + w), LGate.z (m - w)]
  else
    [LGate.x (m + 1), LGate.x (m - 1), LGate.x (m + w), LGate.x (m - w)])
  ++ [LGate.barrier]

/-- The first `while` loop of `LQubit.route`: step the x coordinate of the
last visited pair one column at a time towards `xe`, collecting each visited
coordinate pair. -/
def hLoop (p : Nat × Nat) (xe : Nat) : List (Nat × Nat) :=
  if p.1 = xe then []
  else if p.1 > xe then (p.1 - 1, p.2) :: hLoop (p.1 - 1, p.2) xe
  else (p.1 + 1, p.2) :: hLoop (p.1 + 1, p.2) xe
termination_by Nat.dist p.1 xe
decreasing_by
  all_goals simp [Nat.dist]; omega

/-- The second `while` loop of `LQubit.route`: step the y coordinate one row
at a time towards `ye`. -/
def vLoop (p : Nat × Nat) (ye : Nat) : List (Nat × Nat) :=
  if p.2 = ye then []
  else if p.2 > ye then (p.1, p.2 - 1) :: vLoop (p.1, p.2 - 1) ye
  else (p.1, p.2 + 1) :: vLoop (p.1, p.2 + 1) ye
termination_by Nat.dist p.2 ye
decreasing_by
  all_goals simp [Nat.dist]; omega

/-- `LQubit.route(start, end)`: convert both endpoints to grid coordinates
(`index = x + width * y`), walk horizontally from start's column to end's
column, then vertically from start's row to end's row, and map every visited
coordinate pair back to a node index. -/
def route (width s e : Nat) : List Nat :=
  let c_start := (s % width, s / width)
  let c_end := (e % width, e / width)
  let coords := c_start :: (hLoop c_start c_end.1 ++ vLoop (c_end.1, c_start.2) c_end.2)
  coords.map (fun p => p.1 + width * p.2)

/-- The inclusive arithmetic segment from `a` to `b`, stepping by one. -/
def seg (a b : Nat) : List Nat :=
  if a ≤ b then (List.range (b + 1 - a)).map (fun k => a + k)
  else (List.range (a + 1 - b)).map (fun k => a - k)

/-- Spec-side description of `route`: the columns from start's to end's at
start's row, then (dropping the corner already visited) the rows from
start's to end's at end's column, mapped back to indices. -/
def routeSpec (width s e : Nat) : List Nat :=
  ((seg (s % width) (e % width)).map (fun x => x + width * (s / width)))
    ++ (((seg (s / width) (e / width)).drop 1).map (fun y => e % width + width * y))

/-- `LQubit.move_cell(cycle, start, end)`: create a circuit with `num_nodes`
qubits and `3 * (num_nodes // 2)` classical bits, switch every node on the
route off, build one cycle, pop the route's last node, switch the remaining
route nodes back on, build another cycle.  Qiskit's
`QuantumCircuit.compose` returns a new circuit and leaves the receiver
unchanged unless `inplace=True`; the source discards both results, so the
two built rounds never enter the returned circuit. -/
def move_cell (q : LQubit) (cyc : Lattice → Nat → Circuit) (s e : Nat) :
    LQubit × Circuit :=
  let r := route q.lattice.width s e
  let numNodes := q.lattice.numNodes
  let qc : Circuit := ⟨numNodes, [3 * (numNodes / 2)], []⟩
  let L1 := r.foldl (fun L i => switchNode L i false) q.lattice
  let _ := cyc L1 1
  let r2 := r.dropLast
  let L2 := r2.foldl (fun L i => switchNode L i true) L1
  let _ := cyc L2 1
  ({ q with lattice := L2 }, qc)

/-- The unstated interiority precondition of the claim: the measurement
node's column is neither `0` nor `width - 1`, and both `m - width` and
`m + width` lie in `0..num_nodes-1`. -/
def Interior (w num m : Nat) : Prop :=
  m % w ≠ 0 ∧ m % w ≠ w - 1 ∧ w ≤ m ∧ m + w < num

/-- A (possibly negative) qubit index actually addresses a qubit of the
register. -/
def InRange (num : Nat) (t : Int) : Prop := 0 ≤ t ∧ t < (num : Int)

/-- `t` is a genuine grid neighbour of node `m` on a grid of width `w`:
one column left or right in the same row, or one full row up or down in the
same column. -/
def GridNeighbor (w m : Nat) (t : Int) : Prop :=
  ∃ c r : Nat, c < w ∧ m = c + w * r ∧
    ((c + 1 < w ∧ t = (c : Int) + 1 + (w : Int) * r) ∨
     (1 ≤ c ∧ t = (c : Int) - 1 + (w : Int) * r) ∨
     (t = (c : Int) + (w : Int) * (r + 1)) ∨
     (1 ≤ r ∧ t = (c : Int) + (w : Int) * r - w))

/-- The four neighbour indices the logical-qubit operations compute
arithmetically around the measurement node. -/
def neighborTargets (w m : Nat) : List Int :=
  [(m : Int) + 1, (m : Int) - 1, (m : Int) + w, (m : Int) - w]

/-- A concrete Z-cut logical qubit on the 3×3 lattice: measurement node 4
(the centre), ancilla node 0. -/
def lq4 : LQubit := ⟨sq3, 4, 0, true⟩

/-! ## Fold helper lemmas -/

theorem foldl_append_map {α β : Type} (g : α → β) :
    ∀ (l : List α) (acc : List β),
      l.foldl (fun acc i => acc ++ [g i]) acc = acc ++ l.map g := by
  intro l
  induction l with
  | nil => intro acc; simp
  | cons x xs ih => intro acc; simp [ih]

theorem foldl_filter_append {α β : Type} (p : α → Bool) (g : α → β) :
    ∀ (l : List α) (acc : List β),
      l.foldl (fun acc k => if p k then acc ++ [g k] else acc) acc
        = acc ++ (l.filter p).map g := by
  intro l
  induction l with
  | nil => intro acc; simp
  | cons x xs ih =>
      intro acc
      by_cases hx : p x <;> simp [hx, ih]

theorem measureZ_eq_spec (L : Lattice) (qZ : Nat) : measureZ L qZ = measureZSpec L qZ := by
  unfold measureZ measureZSpec activeNeighbours
  simp [foldl_filter_append, foldl_append_map]

theorem measureX_eq_spec (L : Lattice) (qX : Nat) : measureX L qX = measureXSpec L qX := by
  unfold measureX measureXSpec activeNeighbours
  simp [foldl_filter_append, foldl_append_map]

theorem sc_inner_loop (L : Lattice) (j : Nat) :
    ∀ (l : List Nat) (qc : Circuit),
      l.foldl (scNodeStep L j) qc
        = { qc with instrs := qc.instrs ++ l.filterMap (scDispatch L j) } := by
  intro l
  induction l with
  | nil => intro qc; simp
  | cons x xs ih =>
      intro qc
      rcases hr : (L.nodes.getD x dNode).role <;>
        simp only [List.foldl_cons, List.filterMap_cons, scDispatch, scNodeStep, hr] <;>
        simp [ih]

theorem scCircuit_eq_spec (L : Lattice) (hWF : L.WF) :
    ∀ n, scCircuit L n = scCircuitSpec L n := by
  intro n
  induction n with
  | zero => simp [scCircuit, scCircuitSpec]
  | succ n ih =>
      have hstep : scCircuit L (n + 1) = scCycleStep L (scCircuit L n) n := by
        unfold scCircuit
        rw [List.range_succ, List.foldl_append, List.foldl_cons, List.foldl_nil]
      have hrange : List.range L.graph.length = List.range L.numNodes := by
        rw [hWF]; rfl
      rw [hstep, ih]
      unfold scCycleStep
      simp only [hrange, sc_inner_loop L n]
      unfold scCircuitSpec scRoundSpec
      rw [List.range_succ, List.flatMap_append, List.replicate_succ']
      simp [scRoundSpec]

/-- C1: for every well-formed square lattice and every `num_cycles ≥ 1`,
`SurfaceCodeCycle._circuit(num_cycles)` has exactly the promised round
structure: each round `j` appends exactly one classical register of width
`num_nodes`, emits exactly one gadget per node whose role is `ZNode` or
`XNode` (other roles contribute nothing), wires node `i`'s gadget to
classical bit `i + j * num_nodes`, and ends the round with exactly one
barrier. -/
theorem c1_surface_cycle_round_structure (L : Lattice) (n : Nat)
    (hWF : L.WF) (_hn : 1 ≤ n) :
    scCircuit L n = scCircuitSpec L n :=
  scCircuit_eq_spec L hWF n

/-- Witness for C1: the hypotheses hold and the conclusion follows on the
concrete 3×3 checkerboard lattice with 3 rounds. -/
theorem c1_witness :
    sq3.WF ∧ 1 ≤ 3 ∧ scCircuit sq3 3 = scCircuitSpec sq3 3 :=
  ⟨by decide, by decide, c1_surface_cycle_round_structure sq3 3 (by decide) (by decide)⟩

/-- C5: for every node of the lattice, the measure-Z gadget is exactly the
identity marker, the reset of the syndrome qubit, a controlled-NOT from each
currently-active neighbour into the syndrome qubit, the measurement into one
classical bit, and a trailing identity marker; the measure-X gadget is the
Hadamard-conjugated dual (reset, Hadamard, controlled-NOT from the syndrome
qubit into each active neighbour, Hadamard, measure). -/
theorem c5_measure_gadgets (L : Lattice) (qZ qX : Nat) :
    measureZ L qZ = measureZSpec L qZ ∧ measureX L qX = measureXSpec L qX :=
  ⟨measureZ_eq_spec L qZ, measureX_eq_spec L qX⟩

/-! ## Collection lemmas for the heavy-hex gadgets -/

theorem collectZData_ok (L : Lattice) :
    ∀ l : List Edge,
      (∀ k ∈ l, k.active = true → nodeRole L k.node ≠ Role.Ancilla →
        nodeRole L k.node = Role.Data) →
      collectZData L l = Except.ok
        ((l.filter (fun k =>
          decide (k.active = true ∧ nodeRole L k.node ≠ Role.Ancilla))).map
            Edge.node) := by
  intro l
  induction l with
  | nil => intro _; simp [collectZData]
  | cons x xs ih =>
      intro h
      have hrest := ih (fun k hk => h k (List.mem_cons_of_mem _ hk))
      by_cases hx : x.active = true ∧ nodeRole L x.node ≠ Role.Ancilla
      · have hd : nodeRole L x.node = Role.Data := h x (by simp) hx.1 hx.2
        simp [collectZData, hx, hd, hrest, Except.map]
      · simp [collectZData, hx, hrest]

theorem collectFlagData_ok (L : Lattice) (qX : Nat) :
    ∀ l : List Edge,
      (∀ k ∈ l, k.active = true → k.node ≠ qX →
        nodeRole L k.node = Role.Data) →
      collectFlagData L qX l = Except.ok
        ((l.filter (fun k => decide (k.active = true ∧ k.node ≠ qX))).map Edge.node) := by
  intro l
  induction l with
  | nil => intro _; simp [collectFlagData]
  | cons x xs ih =>
      intro h
      have hrest := ih (fun k hk => h k (List.mem_cons_of_mem _ hk))
      by_cases hx : x.active = true ∧ x.node ≠ qX
      · have hd : nodeRole L x.node = Role.Data := h x (by simp) hx.1 hx.2
        simp [collectFlagData, hx, hd, hrest, Except.map]
      · simp [collectFlagData, hx, hrest]

/-- C4: on a `FlagNode` whose active non-ancilla neighbours are exactly the
two data nodes `d0` then `d1`, the heavy-hex measure-Z gadget is: reset the
flag, controlled-NOT from the second-discovered data neighbour into it, then
from the first-discovered one, then measure the flag into its single
classical bit. -/
theorem c4_heavyhex_measure_z (L : Lattice) (f d0 d1 : Nat)
    (hrole : nodeRole L f = Role.Flag)
    (hfilter : ((adj L f).filter (fun k =>
        decide (k.active = true ∧ nodeRole L k.node ≠ Role.Ancilla))).map Edge.node
      = [d0, d1])
    (hd0 : nodeRole L d0 = Role.Data)
    (hd1 : nodeRole L d1 = Role.Data) :
    hhMeasureZ L f
      = Except.ok [Gate.reset f, Gate.cx d1 f, Gate.cx d0 f, Gate.meas f 0] := by
  have hside : ∀ k ∈ adj L f, k.active = true → nodeRole L k.node ≠ Role.Ancilla →
      nodeRole L k.node = Role.Data := by
    intro k hk ha hna
    have hmem : k.node ∈ [d0, d1] := by
      rw [← hfilter]
      exact List.mem_map_of_mem _ (List.mem_filter.2 ⟨hk, by simp [ha, hna]⟩)
    simp only [List.mem_cons, List.mem_singleton, List.not_mem_nil, or_false] at hmem
    rcases hmem with h | h <;> rw [h] <;> assumption
  have hcol := collectZData_ok L (adj L f) hside
  rw [hfilter] at hcol
  simp [hhMeasureZ, hrole, hcol]

/-- Witness for C4 on the concrete diamond lattice: flag 2 has active data
neighbours 0 then 1, and the gadget is reset, `cx 1→2`, `cx 0→2`, measure. -/
theorem c4_witness :
    nodeRole diamond 2 = Role.Flag
    ∧ ((adj diamond 2).filter (fun k =>
        decide (k.active = true ∧ nodeRole diamond k.node ≠ Role.Ancilla))).map Edge.node
      = [0, 1]
    ∧ hhMeasureZ diamond 2
      = Except.ok [Gate.reset 2, Gate.cx 1 2, Gate.cx 0 2, Gate.meas 2 0] :=
  ⟨by decide, by decide,
    c4_heavyhex_measure_z diamond 2 0 1 (by decide) (by decide) (by decide) (by decide)⟩

theorem hhMeasureX4_ok (L : Lattice) (a f0 f1 d0 d1 d2 d3 : Nat)
    (hra : nodeRole L a = Role.Ancilla)
    (hga : adj L a = [⟨f0, true⟩, ⟨f1, true⟩])
    (hf0 : ((adj L f0).filter (fun k =>
        decide (k.active = true ∧ k.node ≠ a))).map Edge.node = [d0, d1])
    (hf1 : ((adj L f1).filter (fun k =>
        decide (k.active = true ∧ k.node ≠ a))).map Edge.node = [d2, d3])
    (hd0 : nodeRole L d0 = Role.Data) (hd1 : nodeRole L d1 = Role.Data)
    (hd2 : nodeRole L d2 = Role.Data) (hd3 : nodeRole L d3 = Role.Data) :
    hhMeasureX4 L a = Except.ok
      [Gate.reset a, Gate.h a, Gate.reset f0, Gate.reset f1,
       Gate.cx a f1, Gate.cx a f0,
       Gate.cx f1 d2, Gate.cx f0 d1, Gate.cx f1 d3, Gate.cx f0 d0,
       Gate.cx a f1, Gate.cx a f0,
       Gate.meas f0 0, Gate.meas f1 1, Gate.h a, Gate.meas a 2] := by
  have hc0 : collectFlagData L a (adj L f0) = Except.ok [d0, d1] := by
    have hside : ∀ k ∈ adj L f0, k.active = true → k.node ≠ a →
        nodeRole L k.node = Role.Data := by
      intro k hk ha hna
      have hmem : k.node ∈ [d0, d1] := by
        rw [← hf0]
        exact List.mem_map_of_mem _ (List.mem_filter.2 ⟨hk, by simp [ha, hna]⟩)
      simp only [List.mem_cons, List.mem_singleton, List.not_mem_nil, or_false] at hmem
      rcases hmem with h | h <;> rw [h] <;> assumption
    have hc := collectFlagData_ok L a (adj L f0) hside
    rw [hf0] at hc; exact hc
  have hc1 : collectFlagData L a (adj L f1) = Except.ok [d2, d3] := by
    have hside : ∀ k ∈ adj L f1, k.active = true → k.node ≠ a →
        nodeRole L k.node = Role.Data := by
      intro k hk ha hna
      have hmem : k.node ∈ [d2, d3] := by
        rw [← hf1]
        exact List.mem_map_of_mem _ (List.mem_filter.2 ⟨hk, by simp [ha, hna]⟩)
      simp only [List.mem_cons, List.mem_singleton, List.not_mem_nil, or_false] at hmem
      rcases hmem with h | h <;> rw [h] <;> assumption
    have hc := collectFlagData_ok L a (adj L f1) hside
    rw [hf1] at hc; exact hc
  have hflags : (adj L a).foldl (fun acc k => if k.active then acc ++ [k.node] else acc) []
      = [f0, f1] := by
    rw [hga]; rfl
  have hall : collectAllFlagData L a [f0, f1] = Except.ok [d0, d1, d2, d3] := by
    simp [collectAllFlagData, hc0, hc1]
  simp [hhMeasureX4, hra, hflags, hall]

/-- Counterexample for C2: on the concrete diamond lattice (ancilla 3, flags
2 and 4, data `[0, 1]` under flag 2 and `[5, 6]` under flag 4), the gadget
is *not* the claimed sequence whose data-CNOT interleaving is flag1→its
first data neighbour (`4→5`), flag0→its first (`2→0`), flag1→its second
(`4→6`), flag0→its second (`2→1`): the code emits `4→5, 2→1, 4→6, 2→0`
(flag0's CNOTs hit its *second* data neighbour first). -/
theorem c2_counterexample :
    hhMeasureX4 diamond 3 ≠ Except.ok
      [Gate.reset 3, Gate.h 3, Gate.reset 2, Gate.reset 4,
       Gate.cx 3 4, Gate.cx 3 2,
       Gate.cx 4 5, Gate.cx 2 0, Gate.cx 4 6, Gate.cx 2 1,
       Gate.cx 3 4, Gate.cx 3 2,
       Gate.meas 2 0, Gate.meas 4 1, Gate.h 3, Gate.meas 3 2] := by decide

/-- C2 (amended): for an `AncillaNode` `a` whose two active neighbours are
the flags `f0`, `f1`, with active data neighbours `[d0, d1]` under `f0` and
`[d2, d3]` under `f1` (the diamond shape), the measure_x_4 gadget is: reset
ancilla, Hadamard ancilla, reset both flags, CNOT ancilla→flag1 then
ancilla→flag0, then CNOT flag1→its first data neighbour, flag0→its *second*
data neighbour, flag1→its second data neighbour, flag0→its *first* data
neighbour, then CNOT ancilla→flag1 and ancilla→flag0 again, then measures
flag0, flag1 and the Hadamard-rotated ancilla, landing at classical bits
`f0 + j*num_nodes`, `f1 + j*num_nodes`, `a + j*num_nodes`. -/
theorem c2_amended_measure_x_4 (L : Lattice) (j a f0 f1 d0 d1 d2 d3 : Nat)
    (hra : nodeRole L a = Role.Ancilla)
    (hga : adj L a = [⟨f0, true⟩, ⟨f1, true⟩])
    (hrf0 : nodeRole L f0 = Role.Flag)
    (_hrf1 : nodeRole L f1 = Role.Flag)
    (hf0 : ((adj L f0).filter (fun k =>
        decide (k.active = true ∧ k.node ≠ a))).map Edge.node = [d0, d1])
    (hf1 : ((adj L f1).filter (fun k =>
        decide (k.active = true ∧ k.node ≠ a))).map Edge.node = [d2, d3])
    (hd0 : nodeRole L d0 = Role.Data) (hd1 : nodeRole L d1 = Role.Data)
    (hd2 : nodeRole L d2 = Role.Data) (hd3 : nodeRole L d3 = Role.Data) :
    hhNodeInstr L j a = Except.ok
      [CInstr.gadget GLabel.mx4
        [Gate.reset a, Gate.h a, Gate.reset f0, Gate.reset f1,
         Gate.cx a f1, Gate.cx a f0,
         Gate.cx f1 d2, Gate.cx f0 d1, Gate.cx f1 d3, Gate.cx f0 d0,
         Gate.cx a f1, Gate.cx a f0,
         Gate.meas f0 0, Gate.meas f1 1, Gate.h a, Gate.meas a 2]
        [f0 + j * L.numNodes, f1 + j * L.numNodes, a + j * L.numNodes]]
    ∧ (CInstr.gadget GLabel.mx4
        [Gate.reset a, Gate.h a, Gate.reset f0, Gate.reset f1,
         Gate.cx a f1, Gate.cx a f0,
         Gate.cx f1 d2, Gate.cx f0 d1, Gate.cx f1 d3, Gate.cx f0 d0,
         Gate.cx a f1, Gate.cx a f0,
         Gate.meas f0 0, Gate.meas f1 1, Gate.h a, Gate.meas a 2]
        [f0 + j * L.numNodes, f1 + j * L.numNodes, a + j * L.numNodes]).flatten
      = [Gate.reset a, Gate.h a, Gate.reset f0, Gate.reset f1,
         Gate.cx a f1, Gate.cx a f0,
         Gate.cx f1 d2, Gate.cx f0 d1, Gate.cx f1 d3, Gate.cx f0 d0,
         Gate.cx a f1, Gate.cx a f0,
         Gate.meas f0 (f0 + j * L.numNodes), Gate.meas f1 (f1 + j * L.numNodes),
         Gate.h a, Gate.meas a (a + j * L.numNodes)] := by
  have hx4 := hhMeasureX4_ok L a f0 f1 d0 d1 d2 d3 hra hga hf0 hf1 hd0 hd1 hd2 hd3
  constructor
  · simp [hhNodeInstr, hra, hga, hrf0, hx4]
  · simp [CInstr.flatten, mapClbits]

/-- Witness for C2 (amended) on the concrete diamond lattice, round 1. -/
theorem c2_witness :
    nodeRole diamond 3 = Role.Ancilla
    ∧ adj diamond 3 = [⟨2, true⟩, ⟨4, true⟩]
    ∧ hhNodeInstr diamond 1 3 = Except.ok
      [CInstr.gadget GLabel.mx4
        [Gate.reset 3, Gate.h 3, Gate.reset 2, Gate.reset 4,
         Gate.cx 3 4, Gate.cx 3 2,
         Gate.cx 4 5, Gate.cx 2 1, Gate.cx 4 6, Gate.cx 2 0,
         Gate.cx 3 4, Gate.cx 3 2,
         Gate.meas 2 0, Gate.meas 4 1, Gate.h 3, Gate.meas 3 2]
        [2 + 1 * diamond.numNodes, 4 + 1 * diamond.numNodes, 3 + 1 * diamond.numNodes]] :=
  ⟨by decide, by decide,
    (c2_amended_measure_x_4 diamond 1 3 2 4 0 1 5 6 (by decide) (by decide) (by decide)
      (by decide) (by decide) (by decide) (by decide) (by decide) (by decide) (by decide)).1⟩

/-- Counterexample for C3: node 0 of `badAnc` is an `AncillaNode` whose
first neighbour (node 1) is an `AncillaNode` — a combination that is neither
two-data nor two-flag — yet the dispatch returns successfully with no gadget
and no error, instead of raising a construction error. -/
theorem c3_counterexample :
    nodeRole badAnc 0 = Role.Ancilla
    ∧ nodeRole badAnc 1 = Role.Ancilla
    ∧ hhNodeInstr badAnc 0 0 = Except.ok [] := by decide

/-- C3 (amended): in `HeavyHexCode._circuit`, an `AncillaNode` whose two
neighbours are `DataNode`s gets a measure_x_2 gadget; one whose first
neighbour is a `DataNode` but whose second is not raises a construction
error; one whose first neighbour is a `FlagNode` gets a measure_x_4 gadget
(wired to its neighbours' and its own classical bits); and one whose first
neighbour is neither a `DataNode` nor a `FlagNode` is silently skipped —
no gadget, but also no error. -/
theorem c3_amended_ancilla_dispatch (L : Lattice) (j i n1 n2 : Nat)
    (hra : nodeRole L i = Role.Ancilla)
    (hga : adj L i = [⟨n1, true⟩, ⟨n2, true⟩]) :
    (nodeRole L n1 = Role.Data → nodeRole L n2 = Role.Data →
      hhNodeInstr L j i = Except.ok [CInstr.gadget GLabel.mx2
        [Gate.reset i, Gate.cx i n2, Gate.cx i n1, Gate.meas i 0] [i + j * L.numNodes]])
    ∧ (nodeRole L n1 = Role.Data → nodeRole L n2 ≠ Role.Data →
      hhNodeInstr L j i = Except.error "AssertionError")
    ∧ (nodeRole L n1 = Role.Flag →
      hhNodeInstr L j i = (match hhMeasureX4 L i with
        | Except.error e => Except.error e
        | Except.ok g => Except.ok [CInstr.gadget GLabel.mx4 g
            [n1 + j * L.numNodes, n2 + j * L.numNodes, i + j * L.numNodes]]))
    ∧ (nodeRole L n1 ≠ Role.Data → nodeRole L n1 ≠ Role.Flag →
      hhNodeInstr L j i = Except.ok []) := by
  refine ⟨?_, ?_, ?_, ?_⟩
  · intro h1 h2
    have hmx2 : hhMeasureX2 L i
        = Except.ok [Gate.reset i, Gate.cx i n2, Gate.cx i n1, Gate.meas i 0] := by
      simp [hhMeasureX2, hra, hga]
    simp [hhNodeInstr, hra, hga, h1, h2, hmx2]
  · intro h1 h2
    simp [hhNodeInstr, hra, hga, h1, h2]
  · intro h1
    simp [hhNodeInstr, hra, hga, h1]
  · intro h1 h2
    simp [hhNodeInstr, hra, hga, h1, h2]

/-- Witness for C3 (amended): ancilla 1 of `mx2lat` has the two data
neighbours 0 and 2 and gets the measure_x_2 gadget. -/
theorem c3_witness :
    nodeRole mx2lat 1 = Role.Ancilla
    ∧ adj mx2lat 1 = [⟨0, true⟩, ⟨2, true⟩]
    ∧ hhNodeInstr mx2lat 0 1 = Except.ok [CInstr.gadget GLabel.mx2
        [Gate.reset 1, Gate.cx 1 2, Gate.cx 1 0, Gate.meas 1 0] [1 + 0 * mx2lat.numNodes]] :=
  ⟨by decide, by decide,
    (c3_amended_ancilla_dispatch mx2lat 0 1 0 2 (by decide) (by decide)).1
      (by decide) (by decide)⟩

/-! ## Segment lemmas -/

theorem seg_self (a : Nat) : seg a a = [a] := by
  unfold seg
  rw [if_pos le_rfl, Nat.add_sub_cancel_left]
  rfl

theorem seg_asc {a b : Nat} (h : a ≤ b) :
    seg a b = (List.range (b + 1 - a)).map (fun k => a + k) := by
  unfold seg
  rw [if_pos h]

theorem seg_desc {a b : Nat} (h : b ≤ a) :
    seg a b = (List.range (a + 1 - b)).map (fun k => a - k) := by
  unfold seg
  by_cases hab : a ≤ b
  · have hq : a = b := Nat.le_antisymm hab h
    subst hq
    simp
  · rw [if_neg hab]

theorem seg_cons_lt {a b : Nat} (h : a < b) : seg a b = a :: seg (a + 1) b := by
  rw [seg_asc (Nat.le_of_lt h), seg_asc (by omega : a + 1 ≤ b)]
  have h1 : b + 1 - a = (b + 1 - (a + 1)) + 1 := by omega
  rw [h1, List.range_succ_eq_map]
  simp only [List.map_cons, Nat.add_zero, List.map_map]
  congr 1
  apply List.map_congr_left
  intro k _
  simp [Function.comp]
  omega

theorem seg_cons_gt {a b : Nat} (h : b < a) : seg a b = a :: seg (a - 1) b := by
  rw [seg_desc (Nat.le_of_lt h), seg_desc (by omega : b ≤ a - 1)]
  have h1 : a + 1 - b = ((a - 1) + 1 - b) + 1 := by omega
  rw [h1, List.range_succ_eq_map]
  simp only [List.map_cons, Nat.sub_zero, List.map_map]
  congr 1
  apply List.map_congr_left
  intro k _
  simp [Function.comp]
  omega

theorem seg_snoc_gt {a b : Nat} (h : b < a) : seg a b = seg a (b + 1) ++ [b] := by
  rw [seg_desc (Nat.le_of_lt h), seg_desc (by omega : b + 1 ≤ a)]
  have h1 : a + 1 - b = (a + 1 - (b + 1)) + 1 := by omega
  rw [h1, List.range_succ, List.map_append]
  have h2 : a - (a + 1 - (b + 1)) = b := by omega
  simp only [List.map_cons, List.map_nil, h2]

theorem seg_snoc_lt {a b : Nat} (h : a < b) : seg a b = seg a (b - 1) ++ [b] := by
  rw [seg_asc (Nat.le_of_lt h), seg_asc (by omega : a ≤ b - 1)]
  have h1 : b + 1 - a = ((b - 1) + 1 - a) + 1 := by omega
  rw [h1, List.range_succ, List.map_append]
  have h2 : a + ((b - 1) + 1 - a) = b := by omega
  simp only [List.map_cons, List.map_nil, h2]

theorem seg_eq_snoc (a b : Nat) : ∃ t, seg a b = t ++ [b] := by
  rcases Nat.lt_trichotomy a b with h | h | h
  · exact ⟨_, seg_snoc_lt h⟩
  · subst h
    exact ⟨[], seg_self a⟩
  · exact ⟨_, seg_snoc_gt h⟩

theorem seg_eq_cons (a b : Nat) : ∃ t, seg a b = a :: t := by
  rcases Nat.lt_trichotomy a b with h | h | h
  · exact ⟨_, seg_cons_lt h⟩
  · subst h
    exact ⟨[], seg_self a⟩
  · exact ⟨_, seg_cons_gt h⟩

theorem seg_reverse_asc {a b : Nat} (h : a ≤ b) : (seg a b).reverse = seg b a := by
  obtain ⟨d, hd⟩ : ∃ d, b = a + d := ⟨b - a, by omega⟩
  subst hd
  clear h
  induction d generalizing a with
  | zero => simp [seg_self]
  | succ d ih =>
      have e1 : a + (d + 1) = (a + 1) + d := by omega
      rw [seg_cons_lt (by omega : a < a + (d + 1)), List.reverse_cons, e1, ih]
      have h2 : a < (a + 1) + d := by omega
      rw [seg_snoc_gt h2]

theorem seg_reverse (a b : Nat) : (seg a b).reverse = seg b a := by
  rcases Nat.le_total a b with h | h
  · exact seg_reverse_asc h
  · rw [← seg_reverse_asc h, List.reverse_reverse]

theorem seg_getLast (a b : Nat) : (seg a b).getLast? = some b := by
  rw [← List.head?_reverse, seg_reverse]
  obtain ⟨t, ht⟩ := seg_eq_cons b a
  rw [ht]
  rfl

theorem map_seg_cons {α : Type} (f : Nat → α) (a b : Nat) :
    f a :: ((seg a b).drop 1).map f = (seg a b).map f := by
  obtain ⟨t, ht⟩ := seg_eq_cons a b
  rw [ht]
  simp

/-! ## Route lemmas -/

theorem hLoop_eq (xe : Nat) :
    ∀ (x y : Nat), hLoop (x, y) xe = ((seg x xe).drop 1).map (fun t => (t, y)) := by
  have main : ∀ (n x y : Nat), Nat.dist x xe ≤ n →
      hLoop (x, y) xe = ((seg x xe).drop 1).map (fun t => (t, y)) := by
    intro n
    induction n with
    | zero =>
        intro x y hle
        have hx : x = xe := by
          simp [Nat.dist] at hle
          omega
        subst hx
        rw [hLoop]
        simp [seg_self]
    | succ n ih =>
        intro x y hle
        by_cases hx : x = xe
        · subst hx
          rw [hLoop]
          simp [seg_self]
        · by_cases hgt : x > xe
          · rw [hLoop]
            simp only [hx, hgt, if_false, if_true]
            rw [ih (x - 1) y (by simp [Nat.dist] at hle ⊢; omega)]
            rw [seg_cons_gt hgt]
            obtain ⟨t, ht⟩ := seg_eq_cons (x - 1) xe
            rw [ht]
            simp
          · have hlt : x < xe := by omega
            rw [hLoop]
            simp only [hx, hgt, if_false, if_true]
            rw [ih (x + 1) y (by simp [Nat.dist] at hle ⊢; omega)]
            rw [seg_cons_lt hlt]
            obtain ⟨t, ht⟩ := seg_eq_cons (x + 1) xe
            rw [ht]
            simp
  intro x y
  exact main (Nat.dist x xe) x y le_rfl

theorem vLoop_eq (ye : Nat) :
    ∀ (x y : Nat), vLoop (x, y) ye = ((seg y ye).drop 1).map (fun t => (x, t)) := by
  have main : ∀ (n x y : Nat), Nat.dist y ye ≤ n →
      vLoop (x, y) ye = ((seg y ye).drop 1).map (fun t => (x, t)) := by
    intro n
    induction n with
    | zero =>
        intro x y hle
        have hy : y = ye := by
          simp [Nat.dist] at hle
          omega
        subst hy
        rw [vLoop]
        simp [seg_self]
    | succ n ih =>
        intro x y hle
        by_cases hy : y = ye
        · subst hy
          rw [vLoop]
          simp [seg_self]
        · by_cases hgt : y > ye
          · rw [vLoop]
            simp only [hy, hgt, if_false, if_true]
            rw [ih x (y - 1) (by simp [Nat.dist] at hle ⊢; omega)]
            rw [seg_cons_gt hgt]
            obtain ⟨t, ht⟩ := seg_eq_cons (y - 1) ye
            rw [ht]
            simp
          · have hlt : y < ye := by omega
            rw [vLoop]
            simp only [hy, hgt, if_false, if_true]
            rw [ih x (y + 1) (by simp [Nat.dist] at hle ⊢; omega)]
            rw [seg_cons_lt hlt]
            obtain ⟨t, ht⟩ := seg_eq_cons (y + 1) ye
            rw [ht]
            simp
  intro x y
  exact main (Nat.dist y ye) x y le_rfl

theorem route_eq_routeSpec (w s e : Nat) : route w s e = routeSpec w s e := by
  simp only [route, routeSpec, hLoop_eq, vLoop_eq]
  obtain ⟨t, ht⟩ := seg_eq_cons (s % w) (e % w)
  rw [ht]
  simp [List.map_map, Function.comp_def]

theorem map_seg_getLast {α : Type} (f : Nat → α) (a b : Nat) :
    ((seg a b).map f).getLast? = some (f b) := by
  obtain ⟨t, ht⟩ := seg_eq_snoc a b
  rw [ht, List.map_append]
  exact List.getLast?_concat _

theorem map_seg_ne_nil {α : Type} (f : Nat → α) (a b : Nat) : (seg a b).map f ≠ [] := by
  obtain ⟨t, ht⟩ := seg_eq_cons a b
  rw [ht]
  simp

/-- C7: `route(start, end)` is the L-shaped index path of the spec — the
horizontal walk of columns at start's row followed by the vertical walk of
rows at end's column, one step at a time — and it begins with `start`, ends
with `end`, and `route(a, a) = [a]`. -/
theorem c7_route_l_shape (w s e a : Nat) (_hw : 0 < w) :
    route w s e = routeSpec w s e
    ∧ (route w s e).head? = some s
    ∧ (route w s e).getLast? = some e
    ∧ route w a a = [a] := by
  refine ⟨route_eq_routeSpec w s e, ?_, ?_, ?_⟩
  · rw [route_eq_routeSpec]
    unfold routeSpec
    obtain ⟨t, ht⟩ := seg_eq_cons (s % w) (e % w)
    rw [ht]
    simp [Nat.mod_add_div]
  · rw [route_eq_routeSpec]
    unfold routeSpec
    by_cases hy : s / w = e / w
    · rw [hy, seg_self]
      simp only [List.drop_succ_cons, List.drop_zero, List.map_nil, List.append_nil]
      rw [map_seg_getLast]
      rw [Nat.mod_add_div]
    · rcases Nat.lt_or_gt_of_ne hy with hlt | hgt
      · rw [seg_cons_lt hlt]
        simp only [List.drop_succ_cons, List.drop_zero]
        rw [List.getLast?_append_of_ne_nil _ (map_seg_ne_nil _ _ _), map_seg_getLast,
          Nat.mod_add_div]
      · rw [seg_cons_gt hgt]
        simp only [List.drop_succ_cons, List.drop_zero]
        rw [List.getLast?_append_of_ne_nil _ (map_seg_ne_nil _ _ _), map_seg_getLast,
          Nat.mod_add_div]
  · rw [route_eq_routeSpec]
    unfold routeSpec
    rw [seg_self, seg_self]
    simp [Nat.mod_add_div]

/-- Witness for C7 at width 3, `start = 1`, `end = 7`, `a = 5`. -/
theorem c7_witness :
    0 < 3
    ∧ (route 3 1 7 = routeSpec 3 1 7
      ∧ (route 3 1 7).head? = some 1
      ∧ (route 3 1 7).getLast? = some 7
      ∧ route 3 5 5 = [5]) :=
  ⟨by decide, c7_route_l_shape 3 1 7 5 (by decide)⟩

/-- Counterexample for C8: on a width-2 lattice, reversing `route(0, 3)`
(which walks right then down: `[0, 1, 3]`) gives `[3, 1, 0]`, but
`route(3, 0)` walks left then up: `[3, 2, 0]`.  Path symmetry fails when the
endpoints share neither a row nor a column. -/
theorem c8_counterexample : (route 2 0 3).reverse ≠ route 2 3 0 := by
  rw [route_eq_routeSpec, route_eq_routeSpec]
  decide

/-- C8 (amended): for two nodes in the same row or the same column of the
grid, the reverse of `route(a, b)` equals `route(b, a)`. -/
theorem c8_amended_route_symmetry (w a b : Nat) (_hw : 0 < w)
    (hline : a / w = b / w ∨ a % w = b % w) :
    (route w a b).reverse = route w b a := by
  rw [route_eq_routeSpec, route_eq_routeSpec]
  unfold routeSpec
  rcases hline with hrow | hcol
  · rw [hrow, seg_self]
    simp only [List.drop_succ_cons, List.drop_zero, List.map_nil, List.append_nil]
    rw [← List.map_reverse, seg_reverse]
  · rw [hcol, seg_self]
    simp only [List.map_cons, List.map_nil, List.singleton_append]
    rw [map_seg_cons (fun y => b % w + w * y) (a / w) (b / w)]
    rw [map_seg_cons (fun y => b % w + w * y) (b / w) (a / w)]
    rw [← List.map_reverse, seg_reverse]

/-- Witness for C8 (amended): nodes 0 and 6 share column 0 at width 3. -/
theorem c8_witness :
    0 < 3
    ∧ (0 / 3 = 6 / 3 ∨ 0 % 3 = 6 % 3)
    ∧ (route 3 0 6).reverse = route 3 6 0 :=
  ⟨by decide, by decide, c8_amended_route_symmetry 3 0 6 (by decide) (by decide)⟩

/-! ## Activation frame lemmas -/

theorem setNodeActive_get? :
    ∀ (l : List Node) (i j : Nat) (b : Bool),
      (setNodeActive l i b).get? j
        = if i = j then (l.get? j).map (fun nd => ⟨nd.role, b⟩) else l.get? j := by
  intro l
  induction l with
  | nil =>
      intro i j b
      cases i <;> simp [setNodeActive]
  | cons nd rest ih =>
      intro i j b
      cases i with
      | zero =>
          cases j <;> simp [setNodeActive]
      | succ k =>
          cases j with
          | zero => simp [setNodeActive]
          | succ j' =>
              have hiff : (k + 1 = j' + 1) = (k = j') := by
                apply propext
                omega
              simp only [setNodeActive, List.get?_cons_succ, hiff, ih k j' b]

theorem switchNode_nodes_get? (L : Lattice) (i j : Nat) (b : Bool) :
    (switchNode L i b).nodes.get? j
      = if i = j then (L.nodes.get? j).map (fun nd => ⟨nd.role, b⟩) else L.nodes.get? j :=
  setNodeActive_get? L.nodes i j b

theorem switch_twice_active (L : Lattice) (mn an j : Nat) (b : Bool) :
    ((switchNode (switchNode L mn b) an b).nodes.get? j).map Node.active
      = (L.nodes.get? j).map (fun nd => if j = mn ∨ j = an then b else nd.active) := by
  rw [switchNode_nodes_get?, switchNode_nodes_get?]
  by_cases h1 : j = an
  · subst h1
    by_cases h2 : mn = j <;> cases hg : L.nodes.get? j <;> simp [h2, hg]
  · by_cases h2 : j = mn
    · subst h2
      have h1' : ¬(an = j) := fun hq => h1 hq.symm
      cases hg : L.nodes.get? j <;> simp [h1', hg]
    · have h1' : ¬(an = j) := fun hq => h1 hq.symm
      have h2' : ¬(mn = j) := fun hq => h2 hq.symm
      simp [h1', h2', h1, h2]

/-- C6: `initialize()` switches exactly the measurement node and the ancilla
node inactive — every other node's activation is untouched — and `measure()`
switches exactly those two back on. -/
theorem c6_initialize_measure_frame (q : LQubit) (j : Nat) :
    ((q.initialise.1.lattice.nodes.get? j).map Node.active
      = (q.lattice.nodes.get? j).map (fun nd =>
          if j = q.m_node ∨ j = q.a_node then false else nd.active))
    ∧ ((q.measure.1.lattice.nodes.get? j).map Node.active
      = (q.lattice.nodes.get? j).map (fun nd =>
          if j = q.m_node ∨ j = q.a_node then true else nd.active)) := by
  have hinit : q.initialise.1.lattice
      = switchNode (switchNode q.lattice q.m_node false) q.a_node false := rfl
  have hmeas : q.measure.1.lattice
      = switchNode (switchNode q.lattice q.m_node true) q.a_node true := rfl
  constructor
  · rw [hinit, switch_twice_active q.lattice q.m_node q.a_node j false]
  · rw [hmeas, switch_twice_active q.lattice q.m_node q.a_node j true]

/-- C9 (code bug): `move_cell` calls `qc.compose(cycle._circuit(1))` twice
but discards both return values — qiskit's `compose` is not in-place — so
for every logical qubit, cycle builder, and node pair the returned circuit
contains no instructions, in particular neither syndrome-extraction round;
yet the cycle builder it invoked does produce non-empty rounds (one round on
the 3×3 lattice is shown non-empty). -/
theorem c9_move_cell_returns_no_rounds (q : LQubit) (cyc : Lattice → Nat → Circuit)
    (s e : Nat) :
    (move_cell q cyc s e).2.instrs = [] ∧ (scCircuit sq3 1).instrs ≠ [] := by
  constructor
  · rfl
  · decide

/-! ## C10: arithmetic neighbour addressing -/

theorem interior_iff_targets (w num m : Nat) (hw : 2 ≤ w) :
    Interior w num m ↔
      ∀ t ∈ neighborTargets w m, InRange num t ∧ GridNeighbor w m t := by
  have hwInt : (2 : Int) ≤ (w : Int) := by exact_mod_cast hw
  constructor
  · rintro ⟨hc0, hcw, hwm, hmw⟩
    intro t ht
    simp only [neighborTargets, List.mem_cons, List.not_mem_nil, or_false] at ht
    have hc : m % w < w := Nat.mod_lt _ (by omega)
    have hm : m % w + w * (m / w) = m := Nat.mod_add_div m w
    have hmInt : ((m % w : Nat) : Int) + (w : Int) * ((m / w : Nat) : Int) = (m : Int) := by
      exact_mod_cast hm
    have hr1 : 1 ≤ m / w := by
      rcases Nat.eq_zero_or_pos (m / w) with h0 | hpos
      · exfalso
        rw [h0, Nat.mul_zero, Nat.add_zero] at hm
        omega
      · exact hpos
    rcases ht with h | h | h | h <;> subst h
    · refine ⟨⟨by omega, by omega⟩, m % w, m / w, hc, hm.symm, Or.inl ⟨by omega, ?_⟩⟩
      rw [← hmInt]
      ring
    · refine ⟨⟨by omega, by omega⟩, m % w, m / w, hc, hm.symm,
        Or.inr (Or.inl ⟨by omega, ?_⟩)⟩
      rw [← hmInt]
      ring
    · refine ⟨⟨by omega, by omega⟩, m % w, m / w, hc, hm.symm,
        Or.inr (Or.inr (Or.inl ?_))⟩
      rw [← hmInt]
      push_cast
      ring
    · refine ⟨⟨by omega, by omega⟩, m % w, m / w, hc, hm.symm,
        Or.inr (Or.inr (Or.inr ⟨hr1, ?_⟩))⟩
      rw [← hmInt]
  · intro hall
    obtain ⟨hrp1, hgp1⟩ := hall ((m : Int) + 1) (by simp [neighborTargets])
    obtain ⟨hrm1, hgm1⟩ := hall ((m : Int) - 1) (by simp [neighborTargets])
    obtain ⟨hrpw, _⟩ := hall ((m : Int) + w) (by simp [neighborTargets])
    obtain ⟨hrmw, _⟩ := hall ((m : Int) - w) (by simp [neighborTargets])
    obtain ⟨hge1, _⟩ := hrmw
    obtain ⟨_, hlt1⟩ := hrpw
    refine ⟨?_, ?_, by omega, by omega⟩
    · -- column is not 0, from the grid-neighbour shape of m - 1
      obtain ⟨c', r', hc', hm', hdisj⟩ := hgm1
      have hmInt' : (c' : Int) + (w : Int) * (r' : Int) = (m : Int) := by
        exact_mod_cast hm'.symm
      have hmod : m % w = c' := by
        rw [hm', Nat.add_mul_mod_self_left, Nat.mod_eq_of_lt hc']
      rcases hdisj with ⟨_, heq⟩ | ⟨hc1, _⟩ | heq | ⟨_, heq⟩
      · exfalso
        rw [← hmInt'] at heq
        linarith
      · omega
      · exfalso
        rw [← hmInt'] at heq
        ring_nf at heq
        linarith
      · exfalso
        rw [← hmInt'] at heq
        linarith
    · -- column is not w - 1, from the grid-neighbour shape of m + 1
      obtain ⟨c', r', hc', hm', hdisj⟩ := hgp1
      have hmInt' : (c' : Int) + (w : Int) * (r' : Int) = (m : Int) := by
        exact_mod_cast hm'.symm
      have hmod : m % w = c' := by
        rw [hm', Nat.add_mul_mod_self_left, Nat.mod_eq_of_lt hc']
      rcases hdisj with ⟨hlt, _⟩ | ⟨_, heq⟩ | heq | ⟨_, heq⟩
      · omega
      · exfalso
        rw [← hmInt'] at heq
        linarith
      · exfalso
        rw [← hmInt'] at heq
        ring_nf at heq
        linarith
      · exfalso
        rw [← hmInt'] at heq
        linarith

/-- C10: `initialize()`, `measure()` and `circle_gate()` address the four
neighbours of the measurement node purely arithmetically as `m+1`, `m-1`,
`m+width`, `m-width`, with no bounds or adjacency check and no error branch
(the gate lists below are emitted for *every* `m`); and those four computed
indices are all in range *and* genuine grid neighbours of `m` exactly when
`m` is strictly interior — for a boundary measurement node at least one of
them is out of range or a wrapped (non-adjacent) index, yet the gates are
emitted all the same. -/
theorem c10_arithmetic_neighbour_addressing (q : LQubit) (hw : 2 ≤ q.lattice.width) :
    (q.initialise.2
      = (if q.type then
          [LGate.cx ((q.m_node : Int) + 1) q.m_node,
           LGate.cx ((q.m_node : Int) - 1) q.m_node,
           LGate.cx ((q.m_node : Int) + q.lattice.width) q.m_node,
           LGate.cx ((q.m_node : Int) - q.lattice.width) q.m_node]
        else
          [LGate.h q.m_node,
           LGate.cx q.m_node ((q.m_node : Int) + 1),
           LGate.cx q.m_node ((q.m_node : Int) - 1),
           LGate.cx q.m_node ((q.m_node : Int) + q.lattice.width),
           LGate.cx q.m_node ((q.m_node : Int) - q.lattice.width),
           LGate.h q.m_node])
        ++ [LGate.meas q.m_node, LGate.barrier])
    ∧ (q.measure.2
      = (if q.type then
          [LGate.cx ((q.m_node : Int) + 1) q.m_node,
           LGate.cx ((q.m_node : Int) - 1) q.m_node,
           LGate.cx ((q.m_node : Int) + q.lattice.width) q.m_node,
           LGate.cx ((q.m_node : Int) - q.lattice.width) q.m_node]
        else
          [LGate.h q.m_node,
           LGate.cx q.m_node ((q.m_node : Int) + 1),
           LGate.cx q.m_node ((q.m_node : Int) - 1),
           LGate.cx q.m_node ((q.m_node : Int) + q.lattice.width),
           LGate.cx q.m_node ((q.m_node : Int) - q.lattice.width),
           LGate.h q.m_node])
        ++ [LGate.meas q.m_node, LGate.barrier])
    ∧ (q.circle_gate
      = (if q.type then
          [LGate.z ((q.m_node : Int) + 1), LGate.z ((q.m_node : Int) - 1),
           LGate.z ((q.m_node : Int) + q.lattice.width),
           LGate.z ((q.m_node : Int) - q.lattice.width)]
        else
          [LGate.x ((q.m_node : Int) + 1), LGate.x ((q.m_node : Int) - 1),
           LGate.x ((q.m_node : Int) + q.lattice.width),
           LGate.x ((q.m_node : Int) - q.lattice.width)])
        ++ [LGate.barrier])
    ∧ (Interior q.lattice.width q.lattice.numNodes q.m_node ↔
        ∀ t ∈ neighborTargets q.lattice.width q.m_node,
          InRange q.lattice.numNodes t ∧ GridNeighbor q.lattice.width q.m_node t) :=
  ⟨rfl, rfl, rfl, interior_iff_targets q.lattice.width q.lattice.numNodes q.m_node hw⟩

/-- Witness for C10: on the 3×3 lattice the centre node 4 is strictly
interior, and the equivalence holds for the Z-cut qubit `lq4`. -/
theorem c10_witness :
    2 ≤ lq4.lattice.width
    ∧ (Interior lq4.lattice.width lq4.lattice.numNodes lq4.m_node ↔
        ∀ t ∈ neighborTargets lq4.lattice.width lq4.m_node,
          InRange lq4.lattice.numNodes t ∧ GridNeighbor lq4.lattice.width lq4.m_node t) :=
  ⟨by decide, (c10_arithmetic_neighbour_addressing lq4 (by decide)).2.2.2⟩

end Surfacecode
